import Mathlib

/-!
Verification of the gameshow engine (`src/main.rs`).

The Rust source is shallowly embedded: the shared store `GameshowData` becomes a
plain structure, every HTTP handler becomes a pure function
`GameshowData → result × GameshowData`, and the polling advancement
`check_state_add_events` becomes a pure state transformer.  Conventions:

* `usize` fields are `Nat`, `i64` fields are `Int` (integer overflow is out of
  scope of the modelled behaviour).
* The environment-variable overrides of the tunable constants are process
  configuration, out of scope; the source's fallback constants are used.
* The random number generator of the fifty-fifty joker is abstracted by a
  parameter `k` choosing which element of the three-element pool is left out
  (`choose_multiple(rng, 2)` on a three-element list returns exactly the pool
  minus one element, in some order; we model the resulting set).
* A Rust panic (out-of-bounds `Vec` indexing, `usize` underflow) is modelled by
  `Option`: `none` means the handler panics, which mutates nothing.
* The versus settlement multiplies an `i64` balance by an `f64` factor.  Every
  factor is a product of `0.5` and `2.0` contributions, hence exactly a power
  of two, and the `f64` computation is exact (within range); the embedding
  therefore keeps the factor as an integer exponent and applies it with exact
  integer arithmetic, truncating toward zero exactly like the `as i64` cast.
-/

deriving instance DecidableEq for Except

namespace Gameshow

/-- Fallback constant `INITIAL_MONEY` from the source. -/
def INITIAL_MONEY : Int := 500

/-- Fallback constant `INITIAL_JOKERS` from the source. -/
def INITIAL_JOKERS : Nat := 3

/-- Fallback constant `NORMAL_Q_MONEY` from the source. -/
def NORMAL_Q_MONEY : Int := 500

/-- Fallback constant `ESTIMATION_Q_MONEY` from the source. -/
def ESTIMATION_Q_MONEY : Int := 1000

/-- The value `usize::MAX`, the initial minimum distance of the estimation scan. -/
def USIZE_MAX : Nat := 2 ^ 64 - 1

/-- Rust struct `PlayerData`. -/
structure PlayerData where
  name : String
  jokers : Nat
  money : Int
  money_bet : Int
  vs_player : String
  answer : Nat
deriving DecidableEq, Repr

/-- Rust enum `QuestionType`. -/
inductive QuestionType where
  | NormalQuestion
  | BettingQuestion
  | EstimationQuestion
  | VersusQuestion
deriving DecidableEq, Repr

/-- Rust struct `Question`. -/
structure Question where
  question_type : QuestionType
  category : String
  question : String
  answers : List String
  correct_answer : Nat
deriving DecidableEq, Repr

/-- Junk value used with `List.getD` at indexing sites that are in range on
reachable states (Rust would panic out of range). -/
def defaultQuestion : Question :=
  { question_type := .NormalQuestion, category := "", question := "", answers := [], correct_answer := 0 }

/-- Rust struct `EventBeginNormalQAnswering`. -/
structure EventBeginNormalQAnswering where
  question_type : QuestionType
  current_question : Nat
  category : String
  question : String
  answers : List String
deriving DecidableEq, Repr

/-- Rust struct `EventBeginBettingQBetting`. -/
structure EventBeginBettingQBetting where
  question_type : QuestionType
  current_question : Nat
  category : String
deriving DecidableEq, Repr

/-- Rust struct `EventBeginBettingQAnswering`. -/
structure EventBeginBettingQAnswering where
  question : String
  answers : List String
deriving DecidableEq, Repr

/-- Rust struct `EventBeginEstimationQAnswering`. -/
structure EventBeginEstimationQAnswering where
  question_type : QuestionType
  current_question : Nat
  category : String
  question : String
deriving DecidableEq, Repr

/-- Rust struct `EventBeginVersusQSelecting`. -/
structure EventBeginVersusQSelecting where
  question_type : QuestionType
  current_question : Nat
  category : String
deriving DecidableEq, Repr

/-- Rust struct `EventBeginVersusQAnswering`. -/
structure EventBeginVersusQAnswering where
  question : String
  answers : List String
deriving DecidableEq, Repr

/-- Rust struct `EventShowResults`. -/
structure EventShowResults where
  correct_answer : Nat
  previous_player_data : List PlayerData
  player_data : List PlayerData
deriving DecidableEq, Repr

/-- Rust struct `EventGameEnding`. -/
structure EventGameEnding where
  player_data : List PlayerData
deriving DecidableEq, Repr

/-- Rust enum `EventType`. -/
inductive EventType where
  | BeginNormalQAnswering (e : EventBeginNormalQAnswering)
  | BeginBettingQBetting (e : EventBeginBettingQBetting)
  | BeginBettingQAnswering (e : EventBeginBettingQAnswering)
  | BeginEstimationQAnswering (e : EventBeginEstimationQAnswering)
  | BeginVersusQSelecting (e : EventBeginVersusQSelecting)
  | BeginVersusQAnswering (e : EventBeginVersusQAnswering)
  | ShowResults (e : EventShowResults)
  | GameEnding (e : EventGameEnding)
deriving DecidableEq, Repr

/-- Rust struct `Event`. -/
structure Event where
  id : Nat
  event_name : String
  event : EventType
deriving DecidableEq, Repr

/-- Rust enum `QuestionState`; the `Bool` is the "ready to transition" flag. -/
inductive QuestionState where
  | Results (ready : Bool)
  | NormalQAnswering (ready : Bool)
  | BettingQBetting (ready : Bool)
  | BettingQAnswering (ready : Bool)
  | EstimationQAnswering (ready : Bool)
  | VersusQSelecting (ready : Bool)
  | VersusQAnswering (ready : Bool)
  | GameEnding
deriving DecidableEq, Repr

/-- Rust struct `GameshowData`, the shared store.  Operations are modelled as
atomic (one request completing at a time); the locking discipline itself is
not part of the embedding. -/
structure GameshowData where
  player_data : List PlayerData
  questions : List Question
  game_events : List Event
  current_question : Nat
  current_question_state : QuestionState
deriving DecidableEq, Repr

/-- Event id allocation shared by every appending branch of
`check_state_add_events`: last event's id plus one, or `0` for an empty log. -/
def nextEventId (es : List Event) : Nat :=
  match es.getLast? with
  | none => 0
  | some e => e.id + 1

/-- The player record appended by `join_player`. -/
def newPlayer (trimmed_name : String) : PlayerData :=
  { name := trimmed_name, jokers := INITIAL_JOKERS, money := INITIAL_MONEY,
    money_bet := 0, vs_player := "", answer := 0 }

/-- Field reset performed on every player when a new question begins. -/
def resetPlayer (p : PlayerData) : PlayerData :=
  { p with money_bet := 0, vs_player := "", answer := 0 }

/-- The `QuestionState::NormalQAnswering(true)` settlement loop: a correct
answer gains the configured normal-question reward. -/
def normalSettle (correct : Nat) (ps : List PlayerData) : List PlayerData :=
  ps.map fun p => if p.answer = correct then { p with money := p.money + NORMAL_Q_MONEY } else p

/-- The `if player.money == 0 { player.money = 1 }` floor of the betting and
versus settlements. -/
def floorTo1 (m : Int) : Int :=
  if m = 0 then 1 else m

/-- One player's update in the `BettingQAnswering(true)` settlement loop. -/
def bettingSettlePlayer (correct : Nat) (p : PlayerData) : PlayerData :=
  if p.answer = correct then
    { p with money := p.money + p.money_bet }
  else
    { p with money := floorTo1 (p.money - p.money_bet) }

/-- The `BettingQAnswering(true)` settlement loop. -/
def bettingSettle (correct : Nat) (ps : List PlayerData) : List PlayerData :=
  ps.map (bettingSettlePlayer correct)

/-- The branch-free absolute difference computed in the estimation settlement:
`if answer >= correct { answer - correct } else { correct - answer }`. -/
def absDiff (answer correct : Nat) : Nat :=
  if answer ≥ correct then answer - correct else correct - answer

/-- The first loop of the `EstimationQAnswering(true)` settlement: fold over
the players accumulating `(min_dinstance, closest_players)`, starting from
`(usize::MAX, [])`. -/
def estimationScanStep (correct : Nat) (acc : Nat × List String) (p : PlayerData) :
    Nat × List String :=
  let diff := absDiff p.answer correct
  if diff < acc.1 then (diff, [p.name])
  else if diff = acc.1 then (acc.1, acc.2 ++ [p.name])
  else acc

/-- The accumulated scan of the estimation settlement. -/
def estimationScan (correct : Nat) (ps : List PlayerData) : Nat × List String :=
  ps.foldl (estimationScanStep correct) (USIZE_MAX, [])

/-- The `EstimationQAnswering(true)` settlement: players whose name is in
`closest_players` gain the configured estimation reward. -/
def estimationSettle (correct : Nat) (ps : List PlayerData) : List PlayerData :=
  let closest_players := (estimationScan correct ps).2
  ps.map fun p =>
    if closest_players.any fun name => name = p.name then
      { p with money := p.money + ESTIMATION_Q_MONEY }
    else p

/-- Index of the first player with the given name (the versus inner loop with
its `break`). -/
def findName (target : String) : List PlayerData → Option Nat
  | [] => none
  | q :: rest => if q.name = target then some 0 else (findName target rest).map (· + 1)

/-- One selector's contribution to the versus factor vector: find the first
player whose name equals the selector's `vs_player` (the inner loop with its
`break`) and halve (`-1` in the exponent) or double (`+1`) that opponent's
factor depending on the selector's own answer.  The commented-out self-effect
of the source is not active behaviour and is not modelled. -/
def applySelector (correct : Nat) (ps : List PlayerData) (facs : List Int) (p : PlayerData) :
    List Int :=
  if p.vs_player = "" then facs
  else
    match findName p.vs_player ps with
    | none => facs
    | some j => facs.set j (facs.getD j 0 + (if p.answer = correct then -1 else 1))

/-- The first loop of the `VersusQAnswering(true)` settlement: compute every
player's factor (as a power-of-two exponent) from the unmodified player list. -/
def versusExponents (correct : Nat) (ps : List PlayerData) : List Int :=
  ps.foldl (applySelector correct ps) (List.replicate ps.length 0)

/-- Application of a power-of-two factor `2 ^ e` to a balance, truncating
toward zero exactly like the exact `f64` product cast back with `as i64`. -/
def applyFactor (m : Int) (e : Int) : Int :=
  if 0 ≤ e then m * 2 ^ e.toNat else Int.tdiv m (2 ^ (-e).toNat)

/-- The second loop of the `VersusQAnswering(true)` settlement: apply all
factors simultaneously to the balances, flooring an exact 0 to 1. -/
def versusSettle (correct : Nat) (ps : List PlayerData) : List PlayerData :=
  let facs := versusExponents correct ps
  (ps.zip facs).map fun pe => { pe.1 with money := floorTo1 (applyFactor pe.1.money pe.2) }

/-- Advancement `check_state_add_events`: the poll-triggered transition.  Inspects the
current phase; if ready, performs the corresponding transition, appends one
event and moves the phase forward; otherwise does nothing. -/
def check_state_add_events (st : GameshowData) : GameshowData :=
  match st.current_question_state with
  | .Results true =>
    let question_id := st.current_question + 1
    let num_questions := st.questions.length
    if question_id > num_questions then
      let ev : Event :=
        { id := nextEventId st.game_events, event_name := "GameEnding",
          event := .GameEnding { player_data := st.player_data } }
      { st with current_question := question_id,
                game_events := st.game_events ++ [ev],
                current_question_state := .GameEnding }
    else
      let q := st.questions.getD (question_id - 1) defaultQuestion
      let players := st.player_data.map resetPlayer
      let eid := nextEventId st.game_events
      match q.question_type with
      | .NormalQuestion =>
        let ev : Event :=
          { id := eid, event_name := "BeginNormalQAnswering",
            event := .BeginNormalQAnswering
              { question_type := q.question_type, current_question := question_id,
                category := q.category, question := q.question, answers := q.answers } }
        { st with current_question := question_id, player_data := players,
                  game_events := st.game_events ++ [ev],
                  current_question_state := .NormalQAnswering false }
      | .BettingQuestion =>
        let ev : Event :=
          { id := eid, event_name := "BeginBettingQBetting",
            event := .BeginBettingQBetting
              { question_type := q.question_type, current_question := question_id,
                category := q.category } }
        { st with current_question := question_id, player_data := players,
                  game_events := st.game_events ++ [ev],
                  current_question_state := .BettingQBetting false }
      | .EstimationQuestion =>
        let ev : Event :=
          { id := eid, event_name := "BeginEstimationQAnswering",
            event := .BeginEstimationQAnswering
              { question_type := q.question_type, current_question := question_id,
                category := q.category, question := q.question } }
        { st with current_question := question_id, player_data := players,
                  game_events := st.game_events ++ [ev],
                  current_question_state := .EstimationQAnswering false }
      | .VersusQuestion =>
        let ev : Event :=
          { id := eid, event_name := "BeginVersusQSelecting",
            event := .BeginVersusQSelecting
              { question_type := q.question_type, current_question := question_id,
                category := q.category } }
        { st with current_question := question_id, player_data := players,
                  game_events := st.game_events ++ [ev],
                  current_question_state := .VersusQSelecting false }
  | .BettingQBetting true =>
    let q := st.questions.getD (st.current_question - 1) defaultQuestion
    let ev : Event :=
      { id := nextEventId st.game_events, event_name := "BeginBettingQAnswering",
        event := .BeginBettingQAnswering { question := q.question, answers := q.answers } }
    { st with game_events := st.game_events ++ [ev],
              current_question_state := .BettingQAnswering false }
  | .VersusQSelecting true =>
    let q := st.questions.getD (st.current_question - 1) defaultQuestion
    let ev : Event :=
      { id := nextEventId st.game_events, event_name := "BeginVersusQAnswering",
        event := .BeginVersusQAnswering { question := q.question, answers := q.answers } }
    { st with game_events := st.game_events ++ [ev],
              current_question_state := .VersusQAnswering false }
  | .NormalQAnswering true =>
    let correct := (st.questions.getD (st.current_question - 1) defaultQuestion).correct_answer
    let prev := st.player_data
    let players := normalSettle correct prev
    let ev : Event :=
      { id := nextEventId st.game_events, event_name := "ShowResults",
        event := .ShowResults
          { correct_answer := correct, previous_player_data := prev, player_data := players } }
    { st with player_data := players,
              game_events := st.game_events ++ [ev],
              current_question_state := .Results false }
  | .BettingQAnswering true =>
    let correct := (st.questions.getD (st.current_question - 1) defaultQuestion).correct_answer
    let prev := st.player_data
    let players := bettingSettle correct prev
    let ev : Event :=
      { id := nextEventId st.game_events, event_name := "ShowResults",
        event := .ShowResults
          { correct_answer := correct, previous_player_data := prev, player_data := players } }
    { st with player_data := players,
              game_events := st.game_events ++ [ev],
              current_question_state := .Results false }
  | .EstimationQAnswering true =>
    let correct := (st.questions.getD (st.current_question - 1) defaultQuestion).correct_answer
    let prev := st.player_data
    let players := estimationSettle correct prev
    let ev : Event :=
      { id := nextEventId st.game_events, event_name := "ShowResults",
        event := .ShowResults
          { correct_answer := correct, previous_player_data := prev, player_data := players } }
    { st with player_data := players,
              game_events := st.game_events ++ [ev],
              current_question_state := .Results false }
  | .VersusQAnswering true =>
    let correct := (st.questions.getD (st.current_question - 1) defaultQuestion).correct_answer
    let prev := st.player_data
    let players := versusSettle correct prev
    let ev : Event :=
      { id := nextEventId st.game_events, event_name := "ShowResults",
        event := .ShowResults
          { correct_answer := correct, previous_player_data := prev, player_data := players } }
    { st with player_data := players,
              game_events := st.game_events ++ [ev],
              current_question_state := .Results false }
  | _ => st

/-- The outcome kinds of the Action Gateway (the source surfaces them as HTTP
`BadRequest` / `NotAcceptable` responses with distinguishing messages). -/
inductive ApiError where
  | InvalidInput
  | NotFound
  | PhaseMismatch
  | NoJokersLeft
  | LoadFailure
deriving DecidableEq, Repr

/-- Rust `str::trim`, modelled on the character list (Lean's own `String.trim`
is not kernel-reducible).  `Char.isWhitespace` covers the ASCII whitespace
relevant to the embedded behaviour. -/
def rustTrim (s : String) : String :=
  String.mk (((s.data.dropWhile Char.isWhitespace).reverse.dropWhile Char.isWhitespace).reverse)

/-- Handler `join_player`.  Note that the containment check of the source
compares the stored names against the *untrimmed* request name
(`s.name != &params.name`), while the appended player carries the trimmed
name. -/
def join_player (st : GameshowData) (name : String) :
    Except ApiError String × GameshowData :=
  let trimmed_name := rustTrim name
  if trimmed_name = "" then (.error .InvalidInput, st)
  else if st.player_data.all fun s => s.name ≠ name then
    (.ok trimmed_name, { st with player_data := st.player_data ++ [newPlayer trimmed_name] })
  else (.ok trimmed_name, st)

/-- The `for player in iter_mut() { if player.name == name { ...; break } }`
pattern shared by several handlers: apply `f` to the first player whose name
matches, leave everyone else unchanged. -/
def updateFirst (ps : List PlayerData) (name : String) (f : PlayerData → PlayerData) :
    List PlayerData :=
  match ps with
  | [] => []
  | p :: rest => if p.name = name then f p :: rest else p :: updateFirst rest name f

/-- Handler `bet_money`. -/
def bet_money (st : GameshowData) (name : String) (money_bet : Int) :
    Except ApiError Unit × GameshowData :=
  if st.current_question_state ≠ QuestionState.BettingQBetting false then
    (.error .PhaseMismatch, st)
  else
    match st.player_data.find? fun p => p.name = name with
    | none => (.error .NotFound, st)
    | some p =>
      if money_bet < 1 ∨ p.money < money_bet then (.error .InvalidInput, st)
      else
        let players := updateFirst st.player_data name fun q => { q with money_bet := money_bet }
        let all_bet := players.all fun q => ¬ q.money_bet < 1
        if all_bet then
          (.ok (), { st with player_data := players,
                             current_question_state := .BettingQBetting true })
        else (.ok (), { st with player_data := players })

/-- Handler `attack_player` (opponent selection). -/
def attack_player (st : GameshowData) (name vs_player : String) :
    Except ApiError Unit × GameshowData :=
  if st.current_question_state ≠ QuestionState.VersusQSelecting false then
    (.error .PhaseMismatch, st)
  else if name = vs_player then (.error .InvalidInput, st)
  else if ¬ st.player_data.any fun p => p.name = name then (.error .NotFound, st)
  else if ¬ st.player_data.any fun p => p.name = vs_player then (.error .NotFound, st)
  else
    let players := updateFirst st.player_data name fun q => { q with vs_player := vs_player }
    let all_selected := players.all fun q => q.vs_player ≠ ""
    if all_selected then
      (.ok (), { st with player_data := players,
                         current_question_state := .VersusQSelecting true })
    else (.ok (), { st with player_data := players })

/-- The re-match of `answer_question` marking the current answering sub-phase
ready once every player has answered. -/
def setAnsweringReady : QuestionState → QuestionState
  | .NormalQAnswering _ => .NormalQAnswering true
  | .BettingQAnswering _ => .BettingQAnswering true
  | .EstimationQAnswering _ => .EstimationQAnswering true
  | .VersusQAnswering _ => .VersusQAnswering true
  | s => s

/-- Handler `answer_question`. -/
def answer_question (st : GameshowData) (name : String) (answer : Nat) :
    Except ApiError Unit × GameshowData :=
  if st.current_question_state ≠ QuestionState.NormalQAnswering false ∧
      st.current_question_state ≠ QuestionState.BettingQAnswering false ∧
      st.current_question_state ≠ QuestionState.EstimationQAnswering false ∧
      st.current_question_state ≠ QuestionState.VersusQAnswering false then
    (.error .PhaseMismatch, st)
  else if answer < 1 then (.error .InvalidInput, st)
  else
    match st.player_data.find? fun p => p.name = name with
    | none => (.error .NotFound, st)
    | some _ =>
      let players := updateFirst st.player_data name fun q => { q with answer := answer }
      let all_answered := players.all fun q => ¬ q.answer < 1
      if all_answered then
        (.ok (), { st with player_data := players,
                           current_question_state := setAnsweringReady st.current_question_state })
      else (.ok (), { st with player_data := players })

/-- Handler `get_joker_fifty_fifty`.  `k` abstracts the random choice: the two
returned wrong answers are the three-element pool minus the element at index
`k % 3`.  `none` models a Rust panic (question index out of bounds or the
`usize` underflow / out-of-range `Vec::remove` on `correct_answer - 1`); a
panicking handler mutates nothing. -/
def get_joker_fifty_fifty (st : GameshowData) (name : String) (k : Nat) :
    Option (Except ApiError (List Nat) × GameshowData) :=
  if st.current_question_state ≠ QuestionState.NormalQAnswering false ∧
      st.current_question_state ≠ QuestionState.BettingQAnswering false then
    some (.error .PhaseMismatch, st)
  else if st.current_question = 0 then none
  else
    match st.questions.get? (st.current_question - 1) with
    | none => none
    | some q =>
      if q.correct_answer = 0 then none
      else if 4 ≤ q.correct_answer - 1 then none
      else
        let choose_from := ([1, 2, 3, 4] : List Nat).eraseIdx (q.correct_answer - 1)
        let wrong_answers := choose_from.eraseIdx (k % choose_from.length)
        match st.player_data.find? fun p => p.name = name with
        | none => some (.error .NotFound, st)
        | some p =>
          if p.jokers < 1 then some (.error .NoJokersLeft, st)
          else
            some (.ok wrong_answers,
              { st with player_data :=
                  updateFirst st.player_data name fun q => { q with jokers := q.jokers - 1 } })

/-- Handler `give_money` (admin override; a negative amount removes money). -/
def give_money (st : GameshowData) (name : String) (money : Int) :
    Except ApiError (String × Int) × GameshowData :=
  match st.player_data.find? fun p => p.name = name with
  | none => (.error .NotFound, st)
  | some p =>
    (.ok (p.name, p.money + money),
      { st with player_data := updateFirst st.player_data name fun q => { q with money := q.money + money } })

/-- Handler `set_jokers` (admin override). -/
def set_jokers (st : GameshowData) (name : String) (jokers : Nat) :
    Except ApiError (String × Nat) × GameshowData :=
  match st.player_data.find? fun p => p.name = name with
  | none => (.error .NotFound, st)
  | some p =>
    (.ok (p.name, jokers),
      { st with player_data := updateFirst st.player_data name fun q => { q with jokers := jokers } })

/-- Handler `kick_player`: `retain` runs first, then the length comparison
decides between `NotFound` and success. -/
def kick_player (st : GameshowData) (name : String) :
    Except ApiError Unit × GameshowData :=
  let players := st.player_data.filter fun p => p.name ≠ name
  if players.length = st.player_data.length then
    (.error .NotFound, { st with player_data := players })
  else (.ok (), { st with player_data := players })

/-- Handler `activate_next_question` (`requestNextQuestion`). -/
def activate_next_question (st : GameshowData) :
    Except ApiError Unit × GameshowData :=
  match st.current_question_state with
  | .Results _ => (.ok (), { st with current_question_state := .Results true })
  | _ => (.error .PhaseMismatch, st)

/-- Handler `force_question_answering` (moderator override). -/
def force_question_answering (st : GameshowData) :
    Except ApiError Unit × GameshowData :=
  match st.current_question_state with
  | .BettingQBetting false => (.ok (), { st with current_question_state := .BettingQBetting true })
  | .VersusQSelecting false => (.ok (), { st with current_question_state := .VersusQSelecting true })
  | _ => (.error .PhaseMismatch, st)

/-- Handler `force_question_results` (moderator override). -/
def force_question_results (st : GameshowData) :
    Except ApiError Unit × GameshowData :=
  match st.current_question_state with
  | .NormalQAnswering false => (.ok (), { st with current_question_state := .NormalQAnswering true })
  | .BettingQAnswering false => (.ok (), { st with current_question_state := .BettingQAnswering true })
  | .EstimationQAnswering false => (.ok (), { st with current_question_state := .EstimationQAnswering true })
  | .VersusQAnswering false => (.ok (), { st with current_question_state := .VersusQAnswering true })
  | _ => (.error .PhaseMismatch, st)

/-- Handler `set_next_question` (`jumpToQuestion`); returns the previous
question index. -/
def set_next_question (st : GameshowData) (number : Nat) :
    Except ApiError Nat × GameshowData :=
  if st.current_question_state ≠ QuestionState.Results false ∧
      st.current_question_state ≠ QuestionState.GameEnding then
    (.error .PhaseMismatch, st)
  else if number < 1 ∨ st.questions.length < number then (.error .InvalidInput, st)
  else
    (.ok st.current_question,
      { st with current_question := number - 1, current_question_state := .Results false })

/-- Handler `load_questions` (`reloadQuestions`).  The file read performed by
`read_questions` is external collaborator territory; the handler receives its
outcome as `new_questions` (`none` = unreadable or malformed file). -/
def load_questions (st : GameshowData) (new_questions : Option (List Question)) :
    Except ApiError Nat × GameshowData :=
  if st.current_question_state ≠ QuestionState.Results false ∧
      st.current_question_state ≠ QuestionState.GameEnding then
    (.error .PhaseMismatch, st)
  else
    match new_questions with
    | none => (.error .LoadFailure, st)
    | some qs =>
      (.ok qs.length,
        { st with questions := qs, current_question := 0,
                  current_question_state := .Results false })

/-- The operation alphabet of the engine: one label per mutating endpoint.
`poll` is `get_game_events`, whose side effect is `check_state_add_events`. -/
inductive Op where
  | join (name : String)
  | bet (name : String) (amount : Int)
  | attack (name target : String)
  | answer (name : String) (idx : Nat)
  | joker (name : String) (k : Nat)
  | poll
  | giveMoney (name : String) (amount : Int)
  | setJokers (name : String) (jokers : Nat)
  | kick (name : String)
  | activateNext
  | forceAnswering
  | forceResults
  | setNextQuestion (n : Nat)
  | loadQuestions (qs : Option (List Question))
deriving DecidableEq, Repr

/-- State effect of one operation.  A panicking joker request (impossible on
reachable states with well-formed questions) mutates nothing. -/
def applyOp : Op → GameshowData → GameshowData
  | .join name, st => (join_player st name).2
  | .bet name amount, st => (bet_money st name amount).2
  | .attack name target, st => (attack_player st name target).2
  | .answer name idx, st => (answer_question st name idx).2
  | .joker name k, st =>
    match get_joker_fifty_fifty st name k with
    | some r => r.2
    | none => st
  | .poll, st => check_state_add_events st
  | .giveMoney name amount, st => (give_money st name amount).2
  | .setJokers name jokers, st => (set_jokers st name jokers).2
  | .kick name, st => (kick_player st name).2
  | .activateNext, st => (activate_next_question st).2
  | .forceAnswering, st => (force_question_answering st).2
  | .forceResults, st => (force_question_results st).2
  | .setNextQuestion n, st => (set_next_question st n).2
  | .loadQuestions qs, st => (load_questions st qs).2

/-- The store as initialized in `main`, with the startup question list. -/
def initialState (questions : List Question) : GameshowData :=
  { player_data := [], questions := questions, game_events := [],
    current_question := 0, current_question_state := .Results false }

/-- States reachable from startup by any sequence of operations. -/
inductive Reachable : GameshowData → Prop where
  | init (qs : List Question) : Reachable (initialState qs)
  | step {st : GameshowData} (h : Reachable st) (op : Op) : Reachable (applyOp op st)

/-- Restriction used by the amended money invariant: `giveMoney` only with a
non-negative amount. -/
def Op.nonNegGive : Op → Prop
  | .giveMoney _ amount => 0 ≤ amount
  | _ => True

/-- States reachable when every `giveMoney` uses a non-negative amount. -/
inductive ReachableNN : GameshowData → Prop where
  | init (qs : List Question) : ReachableNN (initialState qs)
  | step {st : GameshowData} (h : ReachableNN st) (op : Op) (hop : op.nonNegGive) :
      ReachableNN (applyOp op st)

/-! ### Basic helper lemmas -/

theorem updateFirst_length (ps : List PlayerData) (name : String) (f : PlayerData → PlayerData) :
    (updateFirst ps name f).length = ps.length := by
  induction ps with
  | nil => rfl
  | cons p rest ih =>
    unfold updateFirst
    by_cases h : p.name = name <;> simp [h, ih]

theorem updateFirst_of_find?_eq_none (ps : List PlayerData) (name : String)
    (f : PlayerData → PlayerData) (h : ps.find? (fun p => p.name = name) = none) :
    updateFirst ps name f = ps := by
  induction ps with
  | nil => rfl
  | cons p rest ih =>
    rw [List.find?_cons] at h
    unfold updateFirst
    by_cases hp : p.name = name
    · simp [hp] at h
    · simp only [hp, decide_False, if_false] at h ⊢
      rw [ih h]

theorem updateFirst_of_find?_eq_some (ps : List PlayerData) (name : String)
    (f : PlayerData → PlayerData) {p₀ : PlayerData}
    (h : ps.find? (fun p => p.name = name) = some p₀) :
    ∃ l₁ l₂, ps = l₁ ++ p₀ :: l₂ ∧ updateFirst ps name f = l₁ ++ f p₀ :: l₂ ∧ p₀.name = name := by
  induction ps with
  | nil => simp [List.find?] at h
  | cons p rest ih =>
    rw [List.find?_cons] at h
    by_cases hp : p.name = name
    · rw [show (decide (p.name = name)) = true by simp [hp]] at h
      simp only [] at h
      injection h with h
      subst h
      refine ⟨[], rest, rfl, ?_, hp⟩
      unfold updateFirst
      simp [hp]
    · rw [show (decide (p.name = name)) = false by simp [hp]] at h
      simp only [] at h
      obtain ⟨l₁, l₂, h1, h2, h3⟩ := ih h
      refine ⟨p :: l₁, l₂, by simp [h1], ?_, h3⟩
      unfold updateFirst
      simp [hp, h2]

/-- Membership-based preservation through `updateFirst`: every member of the
updated list is either an untouched original member or `f` applied to a member
whose name matched. -/
theorem mem_updateFirst {ps : List PlayerData} {name : String} {f : PlayerData → PlayerData}
    {q : PlayerData} (hq : q ∈ updateFirst ps name f) :
    q ∈ ps ∨ ∃ p ∈ ps, p.name = name ∧ q = f p := by
  induction ps with
  | nil => simp [updateFirst] at hq
  | cons p rest ih =>
    unfold updateFirst at hq
    by_cases hp : p.name = name
    · simp only [hp, if_true] at hq
      rcases List.mem_cons.mp hq with h | h
      · exact Or.inr ⟨p, List.mem_cons_self p rest, hp, h⟩
      · exact Or.inl (List.mem_cons_of_mem p h)
    · simp only [hp, if_false] at hq
      rcases List.mem_cons.mp hq with h | h
      · exact Or.inl (by simp [h])
      · rcases ih h with h' | ⟨r, hr, hrn, hrq⟩
        · exact Or.inl (List.mem_cons_of_mem p h')
        · exact Or.inr ⟨r, List.mem_cons_of_mem p hr, hrn, hrq⟩

theorem floorTo1_nonneg {m : Int} (h : 0 ≤ m) : 0 ≤ floorTo1 m := by
  unfold floorTo1
  split <;> omega

theorem applyFactor_nonneg {m : Int} (e : Int) (h : 0 ≤ m) : 0 ≤ applyFactor m e := by
  unfold applyFactor
  split
  · positivity
  · exact Int.tdiv_nonneg h (by positivity)

theorem applyFactor_zero (m : Int) : applyFactor m 0 = m := by
  simp [applyFactor]

/-! ### Structure of the advancement: at most one appended event, resulting
phase never ready -/

/-- Phases on which `check_state_add_events` performs no transition. -/
def notReadyPhase : QuestionState → Bool
  | .Results b => !b
  | .NormalQAnswering b => !b
  | .BettingQBetting b => !b
  | .BettingQAnswering b => !b
  | .EstimationQAnswering b => !b
  | .VersusQSelecting b => !b
  | .VersusQAnswering b => !b
  | .GameEnding => true

theorem check_state_eq_self_of_notReady {st : GameshowData}
    (h : notReadyPhase st.current_question_state = true) :
    check_state_add_events st = st := by
  cases hs : st.current_question_state with
  | GameEnding => simp [check_state_add_events, hs]
  | Results b =>
    cases b with
    | false => simp [check_state_add_events, hs]
    | true => rw [hs] at h; simp [notReadyPhase] at h
  | NormalQAnswering b =>
    cases b with
    | false => simp [check_state_add_events, hs]
    | true => rw [hs] at h; simp [notReadyPhase] at h
  | BettingQBetting b =>
    cases b with
    | false => simp [check_state_add_events, hs]
    | true => rw [hs] at h; simp [notReadyPhase] at h
  | BettingQAnswering b =>
    cases b with
    | false => simp [check_state_add_events, hs]
    | true => rw [hs] at h; simp [notReadyPhase] at h
  | EstimationQAnswering b =>
    cases b with
    | false => simp [check_state_add_events, hs]
    | true => rw [hs] at h; simp [notReadyPhase] at h
  | VersusQSelecting b =>
    cases b with
    | false => simp [check_state_add_events, hs]
    | true => rw [hs] at h; simp [notReadyPhase] at h
  | VersusQAnswering b =>
    cases b with
    | false => simp [check_state_add_events, hs]
    | true => rw [hs] at h; simp [notReadyPhase] at h

theorem notReadyPhase_check_state (st : GameshowData) :
    notReadyPhase (check_state_add_events st).current_question_state = true := by
  cases hs : st.current_question_state with
  | GameEnding => simp [check_state_add_events, hs, notReadyPhase]
  | Results b =>
    cases b with
    | false => simp [check_state_add_events, hs, notReadyPhase]
    | true =>
      simp only [check_state_add_events, hs]
      split
      · rfl
      · split <;> rfl
  | NormalQAnswering b =>
    cases b <;> simp [check_state_add_events, hs, notReadyPhase]
  | BettingQBetting b =>
    cases b <;> simp [check_state_add_events, hs, notReadyPhase]
  | BettingQAnswering b =>
    cases b <;> simp [check_state_add_events, hs, notReadyPhase]
  | EstimationQAnswering b =>
    cases b <;> simp [check_state_add_events, hs, notReadyPhase]
  | VersusQSelecting b =>
    cases b <;> simp [check_state_add_events, hs, notReadyPhase]
  | VersusQAnswering b =>
    cases b <;> simp [check_state_add_events, hs, notReadyPhase]

/-- Every branch of the advancement either leaves the log unchanged or appends
exactly one event carrying the successor id. -/
theorem check_state_events (st : GameshowData) :
    (check_state_add_events st).game_events = st.game_events ∨
      ∃ e : Event, e.id = nextEventId st.game_events ∧
        (check_state_add_events st).game_events = st.game_events ++ [e] := by
  cases hs : st.current_question_state with
  | GameEnding => exact Or.inl (by simp [check_state_add_events, hs])
  | Results b =>
    cases b with
    | false => exact Or.inl (by simp [check_state_add_events, hs])
    | true =>
      simp only [check_state_add_events, hs]
      split
      · exact Or.inr ⟨_, rfl, rfl⟩
      · split <;> exact Or.inr ⟨_, rfl, rfl⟩
  | NormalQAnswering b =>
    cases b with
    | false => exact Or.inl (by simp [check_state_add_events, hs])
    | true => simp only [check_state_add_events, hs]; exact Or.inr ⟨_, rfl, rfl⟩
  | BettingQBetting b =>
    cases b with
    | false => exact Or.inl (by simp [check_state_add_events, hs])
    | true => simp only [check_state_add_events, hs]; exact Or.inr ⟨_, rfl, rfl⟩
  | BettingQAnswering b =>
    cases b with
    | false => exact Or.inl (by simp [check_state_add_events, hs])
    | true => simp only [check_state_add_events, hs]; exact Or.inr ⟨_, rfl, rfl⟩
  | EstimationQAnswering b =>
    cases b with
    | false => exact Or.inl (by simp [check_state_add_events, hs])
    | true => simp only [check_state_add_events, hs]; exact Or.inr ⟨_, rfl, rfl⟩
  | VersusQSelecting b =>
    cases b with
    | false => exact Or.inl (by simp [check_state_add_events, hs])
    | true => simp only [check_state_add_events, hs]; exact Or.inr ⟨_, rfl, rfl⟩
  | VersusQAnswering b =>
    cases b with
    | false => exact Or.inl (by simp [check_state_add_events, hs])
    | true => simp only [check_state_add_events, hs]; exact Or.inr ⟨_, rfl, rfl⟩

/-! ### C6: advancement is idempotent -/

/-- C6: Advancement is idempotent: after one invocation of the poll-and-advance
operation performs a transition (or finds the phase not ready), a second
invocation with no intervening action appends no event and leaves the phase
unchanged (indeed the whole store is unchanged); each invocation performs at
most one transition and appends at most one event. -/
theorem c6_advancement_idempotent (st : GameshowData) :
    check_state_add_events (check_state_add_events st) = check_state_add_events st ∧
      (check_state_add_events st).game_events.length ≤ st.game_events.length + 1 := by
  constructor
  · exact check_state_eq_self_of_notReady (notReadyPhase_check_state st)
  · rcases check_state_events st with h | ⟨e, -, h⟩ <;> simp [h]

/-! ### C1: uniqueness of player names under join -/

/-- The store after `join("Ann")` followed by `join("Ann ")`. -/
def c1State : GameshowData :=
  applyOp (.join "Ann ") (applyOp (.join "Ann") (initialState []))

/-- C1 fails on the code: `join_player` compares the stored names against the
*untrimmed* request name, so joining `"Ann "` when `"Ann"` is registered
appends a second player also named `"Ann"` — the roster then holds a duplicate
name, violating the uniqueness invariant.  (Joining the identical string
`"Ann"` twice, and the empty-after-trim rejection, do behave as claimed.) -/
theorem c1_join_breaks_name_uniqueness :
    Reachable c1State ∧
      c1State.player_data.map PlayerData.name = ["Ann", "Ann"] ∧
      (join_player (initialState []) " ").1 = Except.error ApiError.InvalidInput ∧
      ((join_player ((join_player (initialState []) "Ann").2) "Ann").2).player_data.map
        PlayerData.name = ["Ann"] := by
  refine ⟨?_, by decide, by decide, by decide⟩
  exact Reachable.step (Reachable.step (Reachable.init []) (.join "Ann")) (.join "Ann ")

/-! ### C7: event ids are gapless from 0, log is append-only -/

/-- The event log is well-numbered: the i-th event has id i. -/
def EventIdsOk (es : List Event) : Prop :=
  ∀ i (h : i < es.length), (es[i]).id = i

theorem nextEventId_eq_length {es : List Event} (h : EventIdsOk es) :
    nextEventId es = es.length := by
  unfold nextEventId
  cases hes : es.getLast? with
  | none =>
    rw [List.getLast?_eq_none_iff] at hes
    simp [hes]
  | some e =>
    have hne : es ≠ [] := by rintro rfl; simp at hes
    have hlen : 0 < es.length := List.length_pos.mpr hne
    rw [List.getLast?_eq_getElem?, List.getElem?_eq_getElem (by omega)] at hes
    injection hes with hes
    have hid : e.id = es.length - 1 := by
      rw [← hes]
      exact h (es.length - 1) (by omega)
    show e.id + 1 = es.length
    omega

theorem eventIdsOk_append {es : List Event} {e : Event} (h : EventIdsOk es)
    (he : e.id = nextEventId es) : EventIdsOk (es ++ [e]) := by
  intro i hi
  rw [List.length_append, List.length_singleton] at hi
  by_cases hlt : i < es.length
  · rw [List.getElem_append_left hlt]
    exact h i hlt
  · have hieq : i = es.length := by omega
    subst hieq
    rw [List.getElem_append_right (by omega)]
    simp [he, nextEventId_eq_length h]

/-- Only the poll-driven advancement touches the event log, and it appends at
most one event, numbered `nextEventId`. -/
theorem applyOp_events (op : Op) (st : GameshowData) :
    (applyOp op st).game_events = st.game_events ∨
      ∃ e : Event, e.id = nextEventId st.game_events ∧
        (applyOp op st).game_events = st.game_events ++ [e] := by
  cases op with
  | poll => exact check_state_events st
  | join name =>
    refine Or.inl ?_
    simp only [applyOp, join_player]
    repeat' split
    all_goals rfl
  | bet name amount =>
    refine Or.inl ?_
    simp only [applyOp, bet_money]
    repeat' split
    all_goals rfl
  | attack name target =>
    refine Or.inl ?_
    simp only [applyOp, attack_player]
    repeat' split
    all_goals rfl
  | answer name idx =>
    refine Or.inl ?_
    simp only [applyOp, answer_question]
    repeat' split
    all_goals rfl
  | joker name k =>
    refine Or.inl ?_
    simp only [applyOp]
    rcases hj : get_joker_fifty_fifty st name k with - | r
    · rfl
    · show r.2.game_events = st.game_events
      simp only [get_joker_fifty_fifty] at hj
      repeat' split at hj
      all_goals first
        | exact Option.noConfusion hj
        | (injection hj with hj; rw [← hj])
  | giveMoney name amount =>
    refine Or.inl ?_
    simp only [applyOp, give_money]
    repeat' split
    all_goals rfl
  | setJokers name jokers =>
    refine Or.inl ?_
    simp only [applyOp, set_jokers]
    repeat' split
    all_goals rfl
  | kick name =>
    refine Or.inl ?_
    simp only [applyOp, kick_player]
    repeat' split
    all_goals rfl
  | activateNext =>
    refine Or.inl ?_
    simp only [applyOp, activate_next_question]
    repeat' split
    all_goals rfl
  | forceAnswering =>
    refine Or.inl ?_
    simp only [applyOp, force_question_answering]
    repeat' split
    all_goals rfl
  | forceResults =>
    refine Or.inl ?_
    simp only [applyOp, force_question_results]
    repeat' split
    all_goals rfl
  | setNextQuestion n =>
    refine Or.inl ?_
    simp only [applyOp, set_next_question]
    repeat' split
    all_goals rfl
  | loadQuestions qs =>
    refine Or.inl ?_
    simp only [applyOp, load_questions]
    repeat' split
    all_goals rfl

theorem eventIdsOk_reachable {st : GameshowData} (h : Reachable st) :
    EventIdsOk st.game_events := by
  induction h with
  | init qs => intro i hi; simp [initialState] at hi
  | step h op ih =>
    rcases applyOp_events op _ with he | ⟨e, hid, he⟩
    · rw [he]; exact ih
    · rw [he]; exact eventIdsOk_append ih hid

/-- C7: For every reachable event log, event ids form a strictly increasing,
gapless sequence starting at 0 (the i-th event has id i); every appended event
receives id = last id + 1, or 0 when the log is empty, and no operation ever
mutates or removes logged events (each operation either leaves the log
untouched or appends exactly one event). -/
theorem c7_event_ids_gapless {st : GameshowData} (h : Reachable st) :
    EventIdsOk st.game_events ∧
      ∀ op : Op, (applyOp op st).game_events = st.game_events ∨
        ∃ e : Event, e.id = nextEventId st.game_events ∧
          (applyOp op st).game_events = st.game_events ++ [e] :=
  ⟨eventIdsOk_reachable h, fun op => applyOp_events op st⟩

/-- The store after one forced game ending: its log holds the single event
`GameEnding` with id 0. -/
def c7State : GameshowData :=
  applyOp .poll (applyOp .activateNext (initialState []))

theorem c7_event_ids_gapless_witness :
    (c7State.game_events.get ⟨0, by decide⟩).id = 0 := by
  have h := c7_event_ids_gapless
    (Reachable.step (Reachable.step (Reachable.init []) .activateNext) .poll)
  exact h.1 0 (by decide)

/-! ### C8: failed actions leave the store unchanged -/

/-- C8: every Action Gateway operation that returns an error outcome
(`PhaseMismatch`, `InvalidInput`, `NotFound`, `NoJokersLeft`, and also
`LoadFailure`) leaves the Shared Store exactly as it was before the call. -/
theorem c8_errors_leave_store_unchanged (st : GameshowData) :
    (∀ name err st', join_player st name = (Except.error err, st') → st' = st) ∧
    (∀ name amount err st', bet_money st name amount = (Except.error err, st') → st' = st) ∧
    (∀ name target err st', attack_player st name target = (Except.error err, st') → st' = st) ∧
    (∀ name idx err st', answer_question st name idx = (Except.error err, st') → st' = st) ∧
    (∀ name k err st', get_joker_fifty_fifty st name k = some (Except.error err, st') → st' = st) ∧
    (∀ name amount err st', give_money st name amount = (Except.error err, st') → st' = st) ∧
    (∀ name jokers err st', set_jokers st name jokers = (Except.error err, st') → st' = st) ∧
    (∀ name err st', kick_player st name = (Except.error err, st') → st' = st) ∧
    (∀ err st', activate_next_question st = (Except.error err, st') → st' = st) ∧
    (∀ err st', force_question_answering st = (Except.error err, st') → st' = st) ∧
    (∀ err st', force_question_results st = (Except.error err, st') → st' = st) ∧
    (∀ n err st', set_next_question st n = (Except.error err, st') → st' = st) ∧
    (∀ qs err st', load_questions st qs = (Except.error err, st') → st' = st) := by
  refine ⟨?_, ?_, ?_, ?_, ?_, ?_, ?_, ?_, ?_, ?_, ?_, ?_, ?_⟩
  case _ =>
    intro name err st' h
    simp only [join_player] at h
    repeat' split at h
    all_goals injection h with h1 h2
    all_goals first
      | exact h2.symm
      | exact Except.noConfusion h1
  case _ =>
    intro name amount err st' h
    simp only [bet_money] at h
    repeat' split at h
    all_goals injection h with h1 h2
    all_goals first
      | exact h2.symm
      | exact Except.noConfusion h1
  case _ =>
    intro name target err st' h
    simp only [attack_player] at h
    repeat' split at h
    all_goals injection h with h1 h2
    all_goals first
      | exact h2.symm
      | exact Except.noConfusion h1
  case _ =>
    intro name idx err st' h
    simp only [answer_question] at h
    repeat' split at h
    all_goals injection h with h1 h2
    all_goals first
      | exact h2.symm
      | exact Except.noConfusion h1
  case _ =>
    intro name k err st' h
    simp only [get_joker_fifty_fifty] at h
    repeat' split at h
    all_goals first
      | exact Option.noConfusion h
      | (injection h with h; injection h with h1 h2; first
          | exact h2.symm
          | exact Except.noConfusion h1)
  case _ =>
    intro name amount err st' h
    simp only [give_money] at h
    repeat' split at h
    all_goals injection h with h1 h2
    all_goals first
      | exact h2.symm
      | exact Except.noConfusion h1
  case _ =>
    intro name jokers err st' h
    simp only [set_jokers] at h
    repeat' split at h
    all_goals injection h with h1 h2
    all_goals first
      | exact h2.symm
      | exact Except.noConfusion h1
  case _ =>
    intro name err st' h
    simp only [kick_player] at h
    split at h
    case isTrue hlen =>
      injection h with h1 h2
      have hself : st.player_data.filter (fun p => p.name ≠ name) = st.player_data := by
        rw [List.filter_eq_self]
        exact (List.filter_length_eq_length).mp hlen
      rw [← h2, hself]
    case isFalse hlen =>
      injection h with h1 h2
      exact Except.noConfusion h1
  case _ =>
    intro err st' h
    simp only [activate_next_question] at h
    repeat' split at h
    all_goals injection h with h1 h2
    all_goals first
      | exact h2.symm
      | exact Except.noConfusion h1
  case _ =>
    intro err st' h
    simp only [force_question_answering] at h
    repeat' split at h
    all_goals injection h with h1 h2
    all_goals first
      | exact h2.symm
      | exact Except.noConfusion h1
  case _ =>
    intro err st' h
    simp only [force_question_results] at h
    repeat' split at h
    all_goals injection h with h1 h2
    all_goals first
      | exact h2.symm
      | exact Except.noConfusion h1
  case _ =>
    intro n err st' h
    simp only [set_next_question] at h
    repeat' split at h
    all_goals injection h with h1 h2
    all_goals first
      | exact h2.symm
      | exact Except.noConfusion h1
  case _ =>
    intro qs err st' h
    simp only [load_questions] at h
    repeat' split at h
    all_goals injection h with h1 h2
    all_goals first
      | exact h2.symm
      | exact Except.noConfusion h1

/-- A store sitting in phase `BettingQAnswering(false)` with one player, the
spec scenario for the phase-gating example. -/
def c8State : GameshowData :=
  { player_data := [newPlayer "Ann"], questions := [], game_events := [],
    current_question := 1, current_question_state := .BettingQAnswering false }

theorem c8_errors_leave_store_unchanged_witness :
    bet_money c8State "Ann" 5 = (Except.error ApiError.PhaseMismatch, c8State) ∧
      (bet_money c8State "Ann" 5).2 = c8State := by
  refine ⟨by decide, ?_⟩
  exact (c8_errors_leave_store_unchanged c8State).2.1 "Ann" 5 ApiError.PhaseMismatch
    (bet_money c8State "Ann" 5).2 (by decide)

/-! ### C2: money non-negativity -/

/-- Phases during which every placed bet must stay covered by the balance. -/
def inBettingPhases : QuestionState → Prop
  | .BettingQBetting _ => True
  | .BettingQAnswering _ => True
  | _ => False

/-- Per-player money facts: non-negative balance, non-negative bet and, while
`b` holds (a betting phase is current), the bet is covered by the balance. -/
def PlayerMoneyOk (b : Prop) (p : PlayerData) : Prop :=
  0 ≤ p.money ∧ 0 ≤ p.money_bet ∧ (b → p.money_bet ≤ p.money)

/-- The inductive money invariant of the store. -/
def MoneyInv (st : GameshowData) : Prop :=
  ∀ p ∈ st.player_data, PlayerMoneyOk (inBettingPhases st.current_question_state) p

theorem playerMoneyOk_mono {b b' : Prop} {p : PlayerData} (h : PlayerMoneyOk b p)
    (hb : b' → b) : PlayerMoneyOk b' p :=
  ⟨h.1, h.2.1, fun hb' => h.2.2 (hb hb')⟩

theorem newPlayer_playerMoneyOk (b : Prop) (s : String) : PlayerMoneyOk b (newPlayer s) := by
  refine ⟨?_, ?_, fun _ => ?_⟩ <;> norm_num [newPlayer, INITIAL_MONEY]

theorem resetPlayer_playerMoneyOk {p : PlayerData} (h : 0 ≤ p.money) (b' : Prop) :
    PlayerMoneyOk b' (resetPlayer p) :=
  ⟨h, le_refl 0, fun _ => h⟩

theorem normalSettle_money {correct : Nat} {ps : List PlayerData} {b : Prop}
    (h : ∀ p ∈ ps, PlayerMoneyOk b p) :
    ∀ q ∈ normalSettle correct ps, 0 ≤ q.money ∧ 0 ≤ q.money_bet := by
  intro q hq
  simp only [normalSettle, List.mem_map] at hq
  obtain ⟨p, hp, rfl⟩ := hq
  obtain ⟨h1, h2, -⟩ := h p hp
  by_cases hc : p.answer = correct
  · rw [if_pos hc]
    refine ⟨?_, h2⟩
    show 0 ≤ p.money + NORMAL_Q_MONEY
    have : (0 : Int) ≤ NORMAL_Q_MONEY := by norm_num [NORMAL_Q_MONEY]
    omega
  · rw [if_neg hc]
    exact ⟨h1, h2⟩

theorem bettingSettle_money {correct : Nat} {ps : List PlayerData}
    (h : ∀ p ∈ ps, PlayerMoneyOk True p) :
    ∀ q ∈ bettingSettle correct ps, 0 ≤ q.money ∧ 0 ≤ q.money_bet := by
  intro q hq
  simp only [bettingSettle, List.mem_map] at hq
  obtain ⟨p, hp, rfl⟩ := hq
  obtain ⟨h1, h2, h3⟩ := h p hp
  have h3 := h3 trivial
  unfold bettingSettlePlayer
  by_cases hc : p.answer = correct
  · rw [if_pos hc]
    refine ⟨?_, h2⟩
    show 0 ≤ p.money + p.money_bet
    omega
  · rw [if_neg hc]
    refine ⟨?_, h2⟩
    show 0 ≤ floorTo1 (p.money - p.money_bet)
    exact floorTo1_nonneg (by omega)

theorem estimationSettle_money {correct : Nat} {ps : List PlayerData} {b : Prop}
    (h : ∀ p ∈ ps, PlayerMoneyOk b p) :
    ∀ q ∈ estimationSettle correct ps, 0 ≤ q.money ∧ 0 ≤ q.money_bet := by
  intro q hq
  simp only [estimationSettle, List.mem_map] at hq
  obtain ⟨p, hp, rfl⟩ := hq
  obtain ⟨h1, h2, -⟩ := h p hp
  by_cases hc : (estimationScan correct ps).2.any fun name => name = p.name
  · rw [if_pos hc]
    refine ⟨?_, h2⟩
    show 0 ≤ p.money + ESTIMATION_Q_MONEY
    have : (0 : Int) ≤ ESTIMATION_Q_MONEY := by norm_num [ESTIMATION_Q_MONEY]
    omega
  · rw [if_neg hc]
    exact ⟨h1, h2⟩

theorem versusSettle_money {correct : Nat} {ps : List PlayerData} {b : Prop}
    (h : ∀ p ∈ ps, PlayerMoneyOk b p) :
    ∀ q ∈ versusSettle correct ps, 0 ≤ q.money ∧ 0 ≤ q.money_bet := by
  intro q hq
  simp only [versusSettle, List.mem_map] at hq
  obtain ⟨pe, hpe, rfl⟩ := hq
  obtain ⟨h1, h2, -⟩ := h pe.1 (List.of_mem_zip hpe).1
  exact ⟨floorTo1_nonneg (applyFactor_nonneg _ h1), h2⟩

/-- Preservation of the money invariant by every operation, provided
`giveMoney` is used with a non-negative amount. -/
theorem moneyInv_applyOp {st : GameshowData} (h : MoneyInv st) (op : Op)
    (hop : op.nonNegGive) : MoneyInv (applyOp op st) := by
  cases op with
  | join name =>
    simp only [applyOp, join_player]
    split
    · exact h
    · split
      · intro p hp
        rcases List.mem_append.mp hp with hp | hp
        · exact h p hp
        · rw [List.mem_singleton] at hp
          subst hp
          exact newPlayer_playerMoneyOk _ _
      · exact h
  | bet name amount =>
    simp only [applyOp, bet_money]
    split
    · exact h
    · rename_i hphase
      push_neg at hphase
      cases hfind : st.player_data.find? fun p => p.name = name with
      | none => simp only [hfind]; exact h
      | some p =>
        simp only [hfind]
        split
        · exact h
        · rename_i hvalid
          push_neg at hvalid
          have hmem : ∀ q ∈ updateFirst st.player_data name
              (fun q => { q with money_bet := amount }), PlayerMoneyOk True q := by
            obtain ⟨l₁, l₂, hps, hupd, -⟩ :=
              updateFirst_of_find?_eq_some st.player_data name
                (fun q => { q with money_bet := amount }) hfind
            intro q hq
            rw [hupd] at hq
            have hbp : inBettingPhases st.current_question_state := by
              rw [hphase]; trivial
            rcases List.mem_append.mp hq with hq | hq
            · have hq' : q ∈ st.player_data := by
                rw [hps]; exact List.mem_append.mpr (Or.inl hq)
              have hok := h q hq'
              exact ⟨hok.1, hok.2.1, fun _ => hok.2.2 hbp⟩
            · rcases List.mem_cons.mp hq with hq | hq
              · subst hq
                have hp' : p ∈ st.player_data := by rw [hps]; simp
                have hok := h p hp'
                refine ⟨hok.1, ?_, fun _ => ?_⟩
                · show (0 : Int) ≤ amount
                  omega
                · show amount ≤ p.money
                  omega
              · have hq' : q ∈ st.player_data := by
                  rw [hps]
                  exact List.mem_append.mpr (Or.inr (List.mem_cons_of_mem p hq))
                have hok := h q hq'
                exact ⟨hok.1, hok.2.1, fun _ => hok.2.2 hbp⟩
          split
          · intro q hq
            exact playerMoneyOk_mono (hmem q hq) fun x => trivial
          · intro q hq
            exact playerMoneyOk_mono (hmem q hq) fun x => trivial
  | attack name target =>
    simp only [applyOp, attack_player]
    split
    · exact h
    · split
      · exact h
      · split
        · exact h
        · split
          · exact h
          · have hmem : ∀ q ∈ updateFirst st.player_data name
                (fun q => { q with vs_player := target }), 0 ≤ q.money ∧ 0 ≤ q.money_bet := by
              intro q hq
              rcases mem_updateFirst hq with hq | ⟨p, hp, -, rfl⟩
              · exact ⟨(h q hq).1, (h q hq).2.1⟩
              · exact ⟨(h p hp).1, (h p hp).2.1⟩
            rename_i hphase hx1 hx2 hx3
            push_neg at hphase
            split
            · intro q hq
              exact ⟨(hmem q hq).1, (hmem q hq).2, fun hb =>
                absurd hb (by simp [inBettingPhases])⟩
            · intro q hq
              refine ⟨(hmem q hq).1, (hmem q hq).2, fun hb => ?_⟩
              rw [hphase] at hb
              exact absurd hb (by simp [inBettingPhases])
  | answer name idx =>
    simp only [applyOp, answer_question]
    split
    · exact h
    · rename_i hphase
      have h4 : st.current_question_state = QuestionState.NormalQAnswering false ∨
          st.current_question_state = QuestionState.BettingQAnswering false ∨
          st.current_question_state = QuestionState.EstimationQAnswering false ∨
          st.current_question_state = QuestionState.VersusQAnswering false := by
        by_contra hc
        push_neg at hc
        exact hphase ⟨hc.1, hc.2.1, hc.2.2.1, hc.2.2.2⟩
      split
      · exact h
      · cases hfind : st.player_data.find? fun p => p.name = name with
        | none => simp only [hfind]; exact h
        | some p =>
          simp only [hfind]
          have hmem : ∀ q ∈ updateFirst st.player_data name
              (fun q => { q with answer := idx }),
              PlayerMoneyOk (inBettingPhases st.current_question_state) q := by
            intro q hq
            rcases mem_updateFirst hq with hq | ⟨r, hr, -, rfl⟩
            · exact h q hq
            · have hok := h r hr
              exact ⟨hok.1, hok.2.1, hok.2.2⟩
          split
          · intro q hq
            refine playerMoneyOk_mono (hmem q hq) fun hb => ?_
            obtain h4 | h4 | h4 | h4 := h4
            all_goals rw [h4] at hb ⊢
            · exact absurd hb (by simp [setAnsweringReady, inBettingPhases])
            · trivial
            · exact absurd hb (by simp [setAnsweringReady, inBettingPhases])
            · exact absurd hb (by simp [setAnsweringReady, inBettingPhases])
          · intro q hq
            exact playerMoneyOk_mono (hmem q hq) id
  | joker name k =>
    simp only [applyOp]
    rcases hj : get_joker_fifty_fifty st name k with - | r
    · exact h
    · show MoneyInv r.2
      simp only [get_joker_fifty_fifty] at hj
      repeat' split at hj
      all_goals first
        | exact Option.noConfusion hj
        | (injection hj with hj; rw [← hj]; exact h)
        | (injection hj with hj
           rw [← hj]
           intro q hq
           rcases mem_updateFirst hq with hq | ⟨r', hr', -, rfl⟩
           · exact h q hq
           · have hok := h r' hr'
             exact ⟨hok.1, hok.2.1, hok.2.2⟩)
  | poll =>
    simp only [applyOp]
    cases hs : st.current_question_state with
    | GameEnding =>
      rw [check_state_eq_self_of_notReady (by rw [hs]; rfl)]
      exact h
    | Results b =>
      cases b with
      | false =>
        rw [check_state_eq_self_of_notReady (by rw [hs]; rfl)]
        exact h
      | true =>
        simp only [check_state_add_events, hs]
        split
        · intro q hq
          have hok := h q hq
          exact ⟨hok.1, hok.2.1, fun hb => absurd hb (by simp [inBettingPhases])⟩
        · split
          all_goals intro q hq
          all_goals rcases List.mem_map.mp hq with ⟨p, hp, rfl⟩
          all_goals exact resetPlayer_playerMoneyOk (h p hp).1 _
    | NormalQAnswering b =>
      cases b with
      | false =>
        rw [check_state_eq_self_of_notReady (by rw [hs]; rfl)]
        exact h
      | true =>
        simp only [check_state_add_events, hs]
        intro q hq
        have hq' := normalSettle_money h q hq
        exact ⟨hq'.1, hq'.2, fun hb => absurd hb (by simp [inBettingPhases])⟩
    | BettingQBetting b =>
      cases b with
      | false =>
        rw [check_state_eq_self_of_notReady (by rw [hs]; rfl)]
        exact h
      | true =>
        simp only [check_state_add_events, hs]
        intro q hq
        have hok := h q hq
        refine ⟨hok.1, hok.2.1, fun _ => hok.2.2 ?_⟩
        rw [hs]; trivial
    | VersusQSelecting b =>
      cases b with
      | false =>
        rw [check_state_eq_self_of_notReady (by rw [hs]; rfl)]
        exact h
      | true =>
        simp only [check_state_add_events, hs]
        intro q hq
        have hok := h q hq
        exact ⟨hok.1, hok.2.1, fun hb => absurd hb (by simp [inBettingPhases])⟩
    | BettingQAnswering b =>
      cases b with
      | false =>
        rw [check_state_eq_self_of_notReady (by rw [hs]; rfl)]
        exact h
      | true =>
        have hTrue : ∀ p ∈ st.player_data, PlayerMoneyOk True p := by
          intro p hp
          have hok := h p hp
          exact ⟨hok.1, hok.2.1, fun _ => hok.2.2 (by rw [hs]; trivial)⟩
        simp only [check_state_add_events, hs]
        intro q hq
        have hq' := bettingSettle_money hTrue q hq
        exact ⟨hq'.1, hq'.2, fun hb => absurd hb (by simp [inBettingPhases])⟩
    | EstimationQAnswering b =>
      cases b with
      | false =>
        rw [check_state_eq_self_of_notReady (by rw [hs]; rfl)]
        exact h
      | true =>
        simp only [check_state_add_events, hs]
        intro q hq
        have hq' := estimationSettle_money h q hq
        exact ⟨hq'.1, hq'.2, fun hb => absurd hb (by simp [inBettingPhases])⟩
    | VersusQAnswering b =>
      cases b with
      | false =>
        rw [check_state_eq_self_of_notReady (by rw [hs]; rfl)]
        exact h
      | true =>
        simp only [check_state_add_events, hs]
        intro q hq
        have hq' := versusSettle_money h q hq
        exact ⟨hq'.1, hq'.2, fun hb => absurd hb (by simp [inBettingPhases])⟩
  | giveMoney name amount =>
    simp only [applyOp, give_money]
    cases hfind : st.player_data.find? fun p => p.name = name with
    | none => simp only [hfind]; exact h
    | some p =>
      simp only [hfind]
      intro q hq
      rcases mem_updateFirst hq with hq | ⟨r, hr, -, rfl⟩
      · exact h q hq
      · have hok := h r hr
        have hop' : (0 : Int) ≤ amount := hop
        refine ⟨?_, hok.2.1, fun hb => ?_⟩
        · show 0 ≤ r.money + amount
          have := hok.1
          omega
        · show r.money_bet ≤ r.money + amount
          have := hok.2.2 hb
          omega
  | setJokers name jokers =>
    simp only [applyOp, set_jokers]
    cases hfind : st.player_data.find? fun p => p.name = name with
    | none => simp only [hfind]; exact h
    | some p =>
      simp only [hfind]
      intro q hq
      rcases mem_updateFirst hq with hq | ⟨r, hr, -, rfl⟩
      · exact h q hq
      · have hok := h r hr
        exact ⟨hok.1, hok.2.1, hok.2.2⟩
  | kick name =>
    simp only [applyOp, kick_player]
    split
    · intro q hq
      exact h q (List.mem_of_mem_filter hq)
    · intro q hq
      exact h q (List.mem_of_mem_filter hq)
  | activateNext =>
    simp only [applyOp, activate_next_question]
    split
    · intro q hq
      have hok := h q hq
      exact ⟨hok.1, hok.2.1, fun hb => absurd hb (by simp [inBettingPhases])⟩
    · exact h
  | forceAnswering =>
    simp only [applyOp, force_question_answering]
    split
    · rename_i heq
      intro q hq
      have hok := h q hq
      refine ⟨hok.1, hok.2.1, fun _ => hok.2.2 ?_⟩
      rw [heq]; trivial
    · rename_i heq
      intro q hq
      have hok := h q hq
      exact ⟨hok.1, hok.2.1, fun hb => absurd hb (by simp [inBettingPhases])⟩
    · exact h
  | forceResults =>
    simp only [applyOp, force_question_results]
    split
    · intro q hq
      have hok := h q hq
      exact ⟨hok.1, hok.2.1, fun hb => absurd hb (by simp [inBettingPhases])⟩
    · rename_i heq
      intro q hq
      have hok := h q hq
      refine ⟨hok.1, hok.2.1, fun _ => hok.2.2 ?_⟩
      rw [heq]; trivial
    · intro q hq
      have hok := h q hq
      exact ⟨hok.1, hok.2.1, fun hb => absurd hb (by simp [inBettingPhases])⟩
    · intro q hq
      have hok := h q hq
      exact ⟨hok.1, hok.2.1, fun hb => absurd hb (by simp [inBettingPhases])⟩
    · exact h
  | setNextQuestion n =>
    simp only [applyOp, set_next_question]
    split
    · exact h
    · split
      · exact h
      · intro q hq
        have hok := h q hq
        exact ⟨hok.1, hok.2.1, fun hb => absurd hb (by simp [inBettingPhases])⟩
  | loadQuestions qs =>
    simp only [applyOp, load_questions]
    split
    · exact h
    · cases qs with
      | none => exact h
      | some l =>
        intro q hq
        have hok := h q hq
        exact ⟨hok.1, hok.2.1, fun hb => absurd hb (by simp [inBettingPhases])⟩

theorem moneyInv_reachableNN {st : GameshowData} (h : ReachableNN st) : MoneyInv st := by
  induction h with
  | init qs => intro p hp; simp [initialState] at hp
  | step h op hop ih => exact moneyInv_applyOp ih op hop

/-- The store after `join("Ann")` followed by the admin override
`giveMoney("Ann", -600)`. -/
def c2State : GameshowData :=
  applyOp (.giveMoney "Ann" (-600)) (applyOp (.join "Ann") (initialState []))

/-- C2 fails on the code as claimed: `give_money` applies a negative amount
with no floor, so two operations starting from the initial state leave the one
registered player with a stored balance of −100 < 0. -/
theorem c2_negative_money_reachable :
    Reachable c2State ∧
      c2State.player_data.map PlayerData.money = [-100] ∧ (-100 : Int) < 0 := by
  refine ⟨?_, by decide, by decide⟩
  exact Reachable.step (Reachable.step (Reachable.init []) (.join "Ann")) (.giveMoney "Ann" (-600))

/-- C2 amended: excluding `giveMoney` with a negative amount (the admin
override explicitly meant to remove money, which is applied unchecked), every
operation of the Action Gateway — including the Betting and Versus
settlements — keeps every player's stored money non-negative from the initial
state onwards. -/
theorem c2_money_nonneg_without_negative_give {st : GameshowData} (h : ReachableNN st) :
    ∀ p ∈ st.player_data, 0 ≤ p.money :=
  fun p hp => (moneyInv_reachableNN h p hp).1

/-- The store after a single `join("Ann")`. -/
def c2WitnessState : GameshowData :=
  applyOp (.join "Ann") (initialState [])

theorem c2_money_nonneg_without_negative_give_witness :
    0 ≤ ((c2WitnessState.player_data.getD 0 (newPlayer "x")).money) := by
  have h := c2_money_nonneg_without_negative_give
    (ReachableNN.step (ReachableNN.init []) (.join "Ann") trivial)
  exact h (c2WitnessState.player_data.getD 0 (newPlayer "x")) (by decide)

/-! ### C4: betting settlement -/

/-- C4: when advancement fires in phase `BettingQAnswering(true)`, every player
whose answer equals the correct index gains exactly their own bet, every other
player loses their bet, and a resulting balance of exactly 0 is set to 1. -/
theorem c4_betting_settlement (st : GameshowData)
    (hs : st.current_question_state = QuestionState.BettingQAnswering true) :
    (check_state_add_events st).player_data.map PlayerData.money =
      st.player_data.map (fun p =>
        if p.answer = (st.questions.getD (st.current_question - 1) defaultQuestion).correct_answer
        then p.money + p.money_bet
        else if p.money - p.money_bet = 0 then 1 else p.money - p.money_bet) := by
  simp only [check_state_add_events, hs]
  show (bettingSettle _ st.player_data).map PlayerData.money = _
  rw [bettingSettle, List.map_map]
  apply List.map_congr_left
  intro p hp
  simp only [Function.comp_apply, bettingSettlePlayer, floorTo1]
  split
  · rfl
  · rfl

/-- The spec's betting scenario: correct index 2; player A answers 2 with bet
100 and money 500; player B answers 1 with bet 500 and money 500. -/
def c4State : GameshowData :=
  { player_data := [
      { name := "A", jokers := 3, money := 500, money_bet := 100, vs_player := "", answer := 2 },
      { name := "B", jokers := 3, money := 500, money_bet := 500, vs_player := "", answer := 1 }],
    questions := [{ question_type := .BettingQuestion, category := "c", question := "q",
                    answers := ["w", "x", "y", "z"], correct_answer := 2 }],
    game_events := [], current_question := 1,
    current_question_state := .BettingQAnswering true }

theorem c4_betting_settlement_witness :
    (check_state_add_events c4State).player_data.map PlayerData.money = [600, 1] := by
  have h := c4_betting_settlement c4State rfl
  rw [h]
  decide

/-! ### C3: versus settlement computes factors first, applies them once -/

/-- C3: in phase `VersusQAnswering(true)` the factors are computed from the
unmodified pre-round roster and then applied simultaneously.  In the claimed
scenario — A selects B and answers correctly, C selects B and answers
incorrectly, B selects nobody — B's net factor is 2^(-1+1) = 1 applied once to
B's pre-round balance, and every player's balance passes through unchanged
(modulo the 0 → 1 floor); the exponent vector computed from the pre-round
snapshot is exactly [0, 0, 0]. -/
theorem c3_versus_simultaneous_factors
    (st : GameshowData) (pa pb pc : PlayerData) (correct : Nat)
    (hs : st.current_question_state = QuestionState.VersusQAnswering true)
    (hps : st.player_data = [pa, pb, pc])
    (hc : (st.questions.getD (st.current_question - 1) defaultQuestion).correct_answer = correct)
    (hab : pa.name ≠ pb.name)
    (hbn : pb.name ≠ "")
    (havs : pa.vs_player = pb.name) (haans : pa.answer = correct)
    (hcvs : pc.vs_player = pb.name) (hcans : pc.answer ≠ correct)
    (hbvs : pb.vs_player = "") :
    versusExponents correct [pa, pb, pc] = [0, 0, 0] ∧
      (check_state_add_events st).player_data.map PlayerData.money =
        [floorTo1 pa.money, floorTo1 pb.money, floorTo1 pc.money] := by
  have hfind : findName pb.name [pa, pb, pc] = some 1 := by
    unfold findName
    rw [if_neg hab]
    unfold findName
    rw [if_pos rfl]
    rfl
  have h1 : applySelector correct [pa, pb, pc] [0, 0, 0] pa = [0, -1, 0] := by
    unfold applySelector
    rw [havs, if_neg hbn]
    simp only [hfind]
    rw [if_pos haans]
    decide
  have h2 : applySelector correct [pa, pb, pc] [0, -1, 0] pb = [0, -1, 0] := by
    unfold applySelector
    rw [if_pos hbvs]
  have h3 : applySelector correct [pa, pb, pc] [0, -1, 0] pc = [0, 0, 0] := by
    unfold applySelector
    rw [hcvs, if_neg hbn]
    simp only [hfind]
    rw [if_neg hcans]
    decide
  have hexp : versusExponents correct [pa, pb, pc] = [0, 0, 0] := by
    show List.foldl (applySelector correct [pa, pb, pc])
      (List.replicate (List.length [pa, pb, pc]) 0) [pa, pb, pc] = [0, 0, 0]
    rw [show List.replicate (List.length [pa, pb, pc]) (0 : Int) = [0, 0, 0] from rfl]
    rw [List.foldl_cons, h1, List.foldl_cons, h2, List.foldl_cons, h3, List.foldl_nil]
  refine ⟨hexp, ?_⟩
  simp only [check_state_add_events, hs, hc, hps]
  show (versusSettle correct [pa, pb, pc]).map PlayerData.money = _
  unfold versusSettle
  rw [hexp]
  simp [applyFactor_zero]

/-- The C3 scenario instantiated: A (money 300) selects B correctly, C (money
700) selects B incorrectly, B holds an odd balance of 501.  B ends at exactly
501: the two factors compose to 1 before being applied, rather than halving
(truncating 501 to 250) and then doubling (to 500). -/
def c3State : GameshowData :=
  { player_data := [
      { name := "A", jokers := 3, money := 300, money_bet := 0, vs_player := "B", answer := 2 },
      { name := "B", jokers := 3, money := 501, money_bet := 0, vs_player := "", answer := 5 },
      { name := "C", jokers := 3, money := 700, money_bet := 0, vs_player := "B", answer := 1 }],
    questions := [{ question_type := .VersusQuestion, category := "c", question := "q",
                    answers := ["w", "x", "y", "z"], correct_answer := 2 }],
    game_events := [], current_question := 1,
    current_question_state := .VersusQAnswering true }

theorem c3_versus_simultaneous_factors_witness :
    (check_state_add_events c3State).player_data.map PlayerData.money = [300, 501, 700] := by
  have h := c3_versus_simultaneous_factors c3State
    { name := "A", jokers := 3, money := 300, money_bet := 0, vs_player := "B", answer := 2 }
    { name := "B", jokers := 3, money := 501, money_bet := 0, vs_player := "", answer := 5 }
    { name := "C", jokers := 3, money := 700, money_bet := 0, vs_player := "B", answer := 1 }
    2 rfl rfl rfl (by decide) (by decide) rfl rfl rfl (by decide) rfl
  rw [h.2]
  decide

/-! ### C9: the fifty-fifty joker -/

/-- The wrong-answer pair returned by the joker for correct index `c` and
random draw `k`: the pool `[1,2,3,4]` minus the correct index, minus the one
further element the sampler leaves out. -/
def wrongAnswers (c k : Nat) : List Nat :=
  (([1, 2, 3, 4] : List Nat).eraseIdx (c - 1)).eraseIdx
    (k % (([1, 2, 3, 4] : List Nat).eraseIdx (c - 1)).length)

/-- C9: with the current question having four options and its correct index in
[1,4], `requestFiftyFifty` in phase `NormalQAnswering(false)` or
`BettingQAnswering(false)` for a registered player never panics: with at least
one joker it decrements that player's jokers by exactly one and returns two
distinct option indices from {1,2,3,4} minus the correct index; with zero
jokers it fails `NoJokersLeft` and changes nothing. -/
theorem c9_fifty_fifty (st : GameshowData) (name : String) (k : Nat)
    (q : Question) (p : PlayerData)
    (hphase : st.current_question_state = QuestionState.NormalQAnswering false ∨
      st.current_question_state = QuestionState.BettingQAnswering false)
    (hq0 : ¬ st.current_question = 0)
    (hq : st.questions.get? (st.current_question - 1) = some q)
    (_hopts : q.answers.length = 4)
    (hc1 : 1 ≤ q.correct_answer) (hc4 : q.correct_answer ≤ 4)
    (hfind : st.player_data.find? (fun r => r.name = name) = some p) :
    (1 ≤ p.jokers →
      get_joker_fifty_fifty st name k =
        some (Except.ok (wrongAnswers q.correct_answer k),
          { st with player_data := (updateFirst st.player_data name (fun r => { r with jokers := r.jokers - 1 })) }) ∧
      (wrongAnswers q.correct_answer k).length = 2 ∧
      (wrongAnswers q.correct_answer k).Nodup ∧
      ∀ w ∈ wrongAnswers q.correct_answer k,
        w ∈ ([1, 2, 3, 4] : List Nat) ∧ w ≠ q.correct_answer) ∧
    (p.jokers = 0 →
      get_joker_fifty_fifty st name k = some (Except.error ApiError.NoJokersLeft, st)) := by
  have hphase' : ¬(st.current_question_state ≠ QuestionState.NormalQAnswering false ∧
      st.current_question_state ≠ QuestionState.BettingQAnswering false) := by
    rcases hphase with h | h <;> simp [h]
  have hprops : (wrongAnswers q.correct_answer k).length = 2 ∧
      (wrongAnswers q.correct_answer k).Nodup ∧
      ∀ w ∈ wrongAnswers q.correct_answer k,
        w ∈ ([1, 2, 3, 4] : List Nat) ∧ w ≠ q.correct_answer := by
    have h4 : q.correct_answer = 1 ∨ q.correct_answer = 2 ∨
        q.correct_answer = 3 ∨ q.correct_answer = 4 := by omega
    have hk : k % 3 = 0 ∨ k % 3 = 1 ∨ k % 3 = 2 := by omega
    rcases h4 with h4 | h4 | h4 | h4 <;> rcases hk with hk | hk | hk <;>
      simp only [wrongAnswers, h4] <;>
      norm_num [hk]
  refine ⟨fun hj => ⟨?_, hprops⟩, fun hj0 => ?_⟩
  · simp only [get_joker_fifty_fifty, hq, hfind, wrongAnswers]
    rw [if_neg hphase', if_neg hq0, if_neg (by omega), if_neg (by omega), if_neg (by omega)]
  · simp only [get_joker_fifty_fifty, hq, hfind]
    rw [if_neg hphase', if_neg hq0, if_neg (by omega), if_neg (by omega), if_pos (by omega)]

/-- A one-player store in phase `NormalQAnswering(false)` on a four-option
question with correct index 2; the player holds two jokers. -/
def c9State : GameshowData :=
  { player_data := [{ name := "A", jokers := 2, money := 500, money_bet := 0,
                      vs_player := "", answer := 0 }],
    questions := [{ question_type := .NormalQuestion, category := "c", question := "q",
                    answers := ["w", "x", "y", "z"], correct_answer := 2 }],
    game_events := [], current_question := 1,
    current_question_state := .NormalQAnswering false }

theorem c9_fifty_fifty_witness :
    get_joker_fifty_fifty c9State "A" 0 =
      some (Except.ok [3, 4],
        { c9State with player_data := [{ name := "A", jokers := 1, money := 500, money_bet := 0,
                                         vs_player := "", answer := 0 }] }) := by
  have h := c9_fifty_fifty c9State "A" 0
    { question_type := .NormalQuestion, category := "c", question := "q",
      answers := ["w", "x", "y", "z"], correct_answer := 2 }
    { name := "A", jokers := 2, money := 500, money_bet := 0, vs_player := "", answer := 0 }
    (Or.inl rfl) (by decide) rfl (by decide) (by decide) (by decide) rfl
  rw [(h.1 (by decide)).1]
  decide

/-! ### C10: a non-answering player participates in estimation scoring with
the default answer 0 -/

/-- A single estimation question whose correct value is 1. -/
def c10Question : Question :=
  { question_type := .EstimationQuestion, category := "c", question := "q",
    answers := [], correct_answer := 1 }

/-- The store reached by: A joins, B joins, the moderator activates the first
question, a poll begins estimation answering, B answers 3, the moderator
forces results, and a poll settles.  A never answered. -/
def c10State : GameshowData :=
  [Op.join "A", Op.join "B", Op.activateNext, Op.poll, Op.answer "B" 3,
    Op.forceResults, Op.poll].foldl (fun st op => applyOp op st)
    (initialState [c10Question])

/-- The intermediate store in phase `EstimationQAnswering(false)`. -/
def c10Mid : GameshowData :=
  [Op.join "A", Op.join "B", Op.activateNext, Op.poll].foldl
    (fun st op => applyOp op st) (initialState [c10Question])

/-- C10: a player who never submitted an answer participates in estimation
scoring with the default answer value 0 (an explicit answer of 0 is rejected
as `InvalidInput`, so 0 marks "not answered"); their absolute difference to
the correct value is the correct value itself, and in the reachable store
`c10State` the non-answering player A (answer 0, difference 1) beats B
(answer 3, difference 2) and receives the estimation reward. -/
theorem c10_default_answer_zero_can_win :
    (∀ c : Nat, absDiff 0 c = c) ∧
      (answer_question c10Mid "A" 0).1 = Except.error ApiError.InvalidInput ∧
      Reachable c10State ∧
      c10State.player_data.map (fun p => (p.name, p.answer, p.money)) =
        [("A", 0, 1500), ("B", 3, 500)] := by
  refine ⟨fun c => by unfold absDiff; split <;> omega, by decide, ?_, by decide⟩
  exact Reachable.step (Reachable.step (Reachable.step (Reachable.step (Reachable.step
    (Reachable.step (Reachable.step (Reachable.init [c10Question]) (.join "A"))
      (.join "B")) .activateNext) .poll) (.answer "B" 3)) .forceResults) .poll

/-! ### C5: estimation settlement rewards exactly the minimum-distance
players -/

/-- The minimum absolute difference over the roster, as the settlement's first
loop computes it (starting from `usize::MAX`). -/
def estMinDiff (correct : Nat) (ps : List PlayerData) : Nat :=
  ps.foldl (fun a p => min a (absDiff p.answer correct)) USIZE_MAX

theorem estStep_fst (correct : Nat) (m : Nat) (ns : List String) (p : PlayerData) :
    (estimationScanStep correct (m, ns) p).1 = min m (absDiff p.answer correct) := by
  simp only [estimationScanStep]
  split
  · simp only []
    omega
  · split
    · simp only []
      omega
    · simp only []
      omega

theorem estScan_fst (correct : Nat) (ps : List PlayerData) (m : Nat) (ns : List String) :
    (ps.foldl (estimationScanStep correct) (m, ns)).1 =
      ps.foldl (fun a p => min a (absDiff p.answer correct)) m := by
  induction ps generalizing m ns with
  | nil => rfl
  | cons p rest ih =>
    rw [List.foldl_cons, List.foldl_cons]
    have h1 : estimationScanStep correct (m, ns) p =
        (min m (absDiff p.answer correct), (estimationScanStep correct (m, ns) p).2) :=
      Prod.ext_iff.mpr ⟨estStep_fst correct m ns p, rfl⟩
    rw [h1]
    exact ih _ _

theorem foldlMin_le_init (correct : Nat) (ps : List PlayerData) (m : Nat) :
    ps.foldl (fun a p => min a (absDiff p.answer correct)) m ≤ m := by
  induction ps generalizing m with
  | nil => exact le_refl m
  | cons p rest ih =>
    rw [List.foldl_cons]
    exact le_trans (ih _) (by omega)

theorem foldlMin_le_mem (correct : Nat) (ps : List PlayerData) (m : Nat) :
    ∀ p ∈ ps, ps.foldl (fun a p => min a (absDiff p.answer correct)) m ≤
      absDiff p.answer correct := by
  induction ps generalizing m with
  | nil => simp
  | cons r rest ih =>
    intro p hp
    rw [List.foldl_cons]
    rcases List.mem_cons.mp hp with rfl | hp
    · exact le_trans (foldlMin_le_init correct rest _) (by omega)
    · exact ih _ p hp

theorem foldlMin_cases (correct : Nat) (ps : List PlayerData) (m : Nat) :
    ps.foldl (fun a p => min a (absDiff p.answer correct)) m = m ∨
      ∃ p ∈ ps, absDiff p.answer correct =
        ps.foldl (fun a p => min a (absDiff p.answer correct)) m := by
  induction ps generalizing m with
  | nil => exact Or.inl rfl
  | cons r rest ih =>
    rw [List.foldl_cons]
    rcases ih (min m (absDiff r.answer correct)) with h | ⟨p, hp, hp'⟩
    · by_cases hd : absDiff r.answer correct ≤ m
      · refine Or.inr ⟨r, List.mem_cons_self r rest, ?_⟩
        rw [h]
        omega
      · refine Or.inl ?_
        rw [h]
        omega
    · exact Or.inr ⟨p, List.mem_cons_of_mem r hp, hp'⟩

theorem estScan_snd_mem (correct : Nat) (ps : List PlayerData) :
    ∀ (m : Nat) (ns : List String) (x : String),
      x ∈ (ps.foldl (estimationScanStep correct) (m, ns)).2 ↔
        ((ps.foldl (fun a p => min a (absDiff p.answer correct)) m) = m ∧ x ∈ ns) ∨
          ∃ q ∈ ps, q.name = x ∧
            absDiff q.answer correct =
              ps.foldl (fun a p => min a (absDiff p.answer correct)) m := by
  induction ps with
  | nil =>
    intro m ns x
    simp
  | cons p rest ih =>
    intro m ns x
    rw [List.foldl_cons, List.foldl_cons]
    have hstep : estimationScanStep correct (m, ns) p =
        if absDiff p.answer correct < m then (absDiff p.answer correct, [p.name])
        else if absDiff p.answer correct = m then (m, ns ++ [p.name]) else (m, ns) := by
      simp only [estimationScanStep]
    rw [hstep]
    have hFle := foldlMin_le_init correct rest (min m (absDiff p.answer correct))
    by_cases h1 : absDiff p.answer correct < m
    · rw [if_pos h1]
      have hmin : min m (absDiff p.answer correct) = absDiff p.answer correct := by omega
      rw [hmin] at hFle ⊢
      rw [ih (absDiff p.answer correct) [p.name] x]
      constructor
      · rintro (⟨hF, hx⟩ | ⟨q, hq, hqx, hqd⟩)
        · rw [List.mem_singleton] at hx
          subst hx
          exact Or.inr ⟨p, List.mem_cons_self p rest, rfl, hF.symm ▸ rfl⟩
        · exact Or.inr ⟨q, List.mem_cons_of_mem p hq, hqx, hqd⟩
      · rintro (⟨hF, hx⟩ | ⟨q, hq, hqx, hqd⟩)
        · omega
        · rcases List.mem_cons.mp hq with rfl | hq
          · exact Or.inl ⟨by omega, by rw [List.mem_singleton, ← hqx]⟩
          · exact Or.inr ⟨q, hq, hqx, hqd⟩
    · by_cases h2 : absDiff p.answer correct = m
      · rw [if_neg h1, if_pos h2]
        have hmin : min m (absDiff p.answer correct) = m := by omega
        rw [hmin] at hFle ⊢
        rw [ih m (ns ++ [p.name]) x]
        constructor
        · rintro (⟨hF, hx⟩ | ⟨q, hq, hqx, hqd⟩)
          · rcases List.mem_append.mp hx with hx | hx
            · exact Or.inl ⟨hF, hx⟩
            · rw [List.mem_singleton] at hx
              subst hx
              exact Or.inr ⟨p, List.mem_cons_self p rest, rfl, by omega⟩
          · exact Or.inr ⟨q, List.mem_cons_of_mem p hq, hqx, hqd⟩
        · rintro (⟨hF, hx⟩ | ⟨q, hq, hqx, hqd⟩)
          · exact Or.inl ⟨hF, List.mem_append.mpr (Or.inl hx)⟩
          · rcases List.mem_cons.mp hq with rfl | hq
            · refine Or.inl ⟨by omega, List.mem_append.mpr (Or.inr ?_)⟩
              rw [List.mem_singleton, ← hqx]
            · exact Or.inr ⟨q, hq, hqx, hqd⟩
      · rw [if_neg h1, if_neg h2]
        have hmin : min m (absDiff p.answer correct) = m := by omega
        rw [hmin] at hFle ⊢
        rw [ih m ns x]
        constructor
        · rintro (⟨hF, hx⟩ | ⟨q, hq, hqx, hqd⟩)
          · exact Or.inl ⟨hF, hx⟩
          · exact Or.inr ⟨q, List.mem_cons_of_mem p hq, hqx, hqd⟩
        · rintro (⟨hF, hx⟩ | ⟨q, hq, hqx, hqd⟩)
          · exact Or.inl ⟨hF, hx⟩
          · rcases List.mem_cons.mp hq with rfl | hq
            · omega
            · exact Or.inr ⟨q, hq, hqx, hqd⟩

/-- Membership in `closest_players` is exactly "some roster entry with this
name attains the minimum distance". -/
theorem estimationScan_spec (correct : Nat) (ps : List PlayerData) (x : String) :
    x ∈ (estimationScan correct ps).2 ↔
      ∃ q ∈ ps, q.name = x ∧ absDiff q.answer correct = estMinDiff correct ps := by
  unfold estimationScan estMinDiff
  rw [estScan_snd_mem correct ps USIZE_MAX [] x]
  simp

theorem name_inj_of_pairwise {ps : List PlayerData}
    (h : ps.Pairwise fun a b => a.name ≠ b.name) :
    ∀ p ∈ ps, ∀ q ∈ ps, q.name = p.name → q = p := by
  induction ps with
  | nil => simp
  | cons r rest ih =>
    rw [List.pairwise_cons] at h
    intro p hp q hq hname
    rcases List.mem_cons.mp hp with hpe | hp'
    · rcases List.mem_cons.mp hq with hqe | hq'
      · rw [hqe, hpe]
      · subst hpe
        exact absurd hname.symm (h.1 q hq')
    · rcases List.mem_cons.mp hq with hqe | hq'
      · subst hqe
        exact absurd hname (h.1 p hp')
      · exact ih h.2 p hp' q hq' hname

/-- For a roster with pairwise-distinct names, the settlement rewards exactly
the players attaining the minimum distance. -/
theorem estimationSettle_spec {correct : Nat} {ps : List PlayerData}
    (hnames : ps.Pairwise fun a b => a.name ≠ b.name) :
    (estimationSettle correct ps).map PlayerData.money =
      ps.map (fun p => if absDiff p.answer correct = estMinDiff correct ps
        then p.money + ESTIMATION_Q_MONEY else p.money) := by
  unfold estimationSettle
  rw [List.map_map]
  apply List.map_congr_left
  intro p hp
  simp only [Function.comp_apply]
  have hiff : ((estimationScan correct ps).2.any fun name => name = p.name) = true ↔
      absDiff p.answer correct = estMinDiff correct ps := by
    rw [List.any_eq_true]
    constructor
    · rintro ⟨x, hx, hxp⟩
      rw [decide_eq_true_eq] at hxp
      obtain ⟨q, hq, hqx, hqd⟩ := (estimationScan_spec correct ps x).mp hx
      have hqp : q = p := name_inj_of_pairwise hnames p hp q hq (by rw [hqx, hxp])
      rw [← hqp]
      exact hqd
    · intro hd
      refine ⟨p.name, ?_, by simp⟩
      exact (estimationScan_spec correct ps p.name).mpr ⟨p, hp, rfl, hd⟩
  by_cases hd : absDiff p.answer correct = estMinDiff correct ps
  · rw [if_pos (hiff.mpr hd), if_pos hd]
  · rw [if_neg (fun hc => hd (hiff.mp hc)), if_neg hd]

/-- C5: when advancement fires in phase `EstimationQAnswering(true)` on a
roster with pairwise-distinct names, exactly the players whose absolute
difference to the correct value attains the minimum over all players (ties
included) gain the configured estimation reward, everyone else is unchanged;
the minimum is a lower bound of all differences and, on a non-empty roster
whose differences fit in `usize`, it is attained. -/
theorem c5_estimation_settlement (st : GameshowData) (correct : Nat)
    (hs : st.current_question_state = QuestionState.EstimationQAnswering true)
    (hc : (st.questions.getD (st.current_question - 1) defaultQuestion).correct_answer = correct)
    (hnames : st.player_data.Pairwise fun a b => a.name ≠ b.name)
    (hbound : ∀ p ∈ st.player_data, absDiff p.answer correct ≤ USIZE_MAX)
    (hne : st.player_data ≠ []) :
    (check_state_add_events st).player_data.map PlayerData.money =
      st.player_data.map (fun p =>
        if absDiff p.answer correct = estMinDiff correct st.player_data
        then p.money + ESTIMATION_Q_MONEY else p.money) ∧
      (∀ p ∈ st.player_data,
        estMinDiff correct st.player_data ≤ absDiff p.answer correct) ∧
      ∃ p ∈ st.player_data,
        absDiff p.answer correct = estMinDiff correct st.player_data := by
  refine ⟨?_, fun p hp => foldlMin_le_mem correct st.player_data USIZE_MAX p hp, ?_⟩
  · simp only [check_state_add_events, hs, hc]
    exact estimationSettle_spec hnames
  · rcases foldlMin_cases correct st.player_data USIZE_MAX with hF | hF
    · obtain ⟨p, hp⟩ := List.exists_mem_of_ne_nil st.player_data hne
      refine ⟨p, hp, ?_⟩
      have h1 := foldlMin_le_mem correct st.player_data USIZE_MAX p hp
      have h2 := hbound p hp
      unfold estMinDiff at h1 ⊢
      omega
    · exact hF

/-- The spec's estimation scenario: correct value 50, answers 48, 52 and 10,
every player starting from 500. -/
def c5State : GameshowData :=
  { player_data := [
      { name := "A", jokers := 3, money := 500, money_bet := 0, vs_player := "", answer := 48 },
      { name := "B", jokers := 3, money := 500, money_bet := 0, vs_player := "", answer := 52 },
      { name := "C", jokers := 3, money := 500, money_bet := 0, vs_player := "", answer := 10 }],
    questions := [{ question_type := .EstimationQuestion, category := "c", question := "q",
                    answers := [], correct_answer := 50 }],
    game_events := [], current_question := 1,
    current_question_state := .EstimationQAnswering true }

theorem c5_estimation_settlement_witness :
    (check_state_add_events c5State).player_data.map PlayerData.money =
      [1500, 1500, 500] := by
  have h := c5_estimation_settlement c5State 50 rfl rfl (by decide) (by decide) (by decide)
  rw [h.1]
  decide

end Gameshow
